import Mathlib

/-!
A shallow embedding of the text-editing core of the `termi` terminal editor
(`src/main.rs`), together with proofs about its tokenizer, bracket matcher,
edit operations, undo/redo history, indentation and word motions.

Conventions of the embedding:
* A `Line` is a `List Char` (Rust `Vec<char>`), a buffer a `List Line`.
* Rust's panicking index `v[i]` is modelled by `List.getD` / `List.set` /
  `List.insertIdx`; out-of-range accesses (which would panic in Rust) are
  total here, and theorems carry the in-range hypotheses the editor
  maintains.
* Rust `while` loops that advance an index are modelled either by a
  structural fuel argument (always called with fuel larger than the number
  of possible steps) or, for the simple word-motion scans, by run lengths
  (`runLen`), which compute the same fixpoint.
* `char::is_ascii_digit / is_ascii_alphabetic / is_ascii_alphanumeric`
  are `Char.isDigit / Char.isAlpha / Char.isAlphanum`.  The word motions
  use Rust's Unicode `is_alphanumeric`, restricted here to its ASCII
  behaviour (`Char.isAlphanum`); all concrete inputs in this file are ASCII.
* I/O (reading a file, writing a file, clipboard) is abstracted by
  parameters: `open_file` takes the read result (`none` = I/O error),
  `save` a write-success flag, `paste` the system-clipboard text.
-/

namespace Termi

/-- Token kinds, from `enum TokenType` in src/main.rs. -/
inductive TokenType where
  | Keyword
  | String
  | Comment
  | Number
  | Normal
deriving DecidableEq, Repr

/-- Languages, from `enum Language` in src/main.rs. -/
inductive Language where
  | Rust
  | JavaScript
  | Python
  | C
  | Cpp
  | Java
  | None
deriving DecidableEq, Repr

/-- `get_keywords` from src/main.rs. -/
def get_keywords : Language → List String
  | .Rust =>
    ["fn", "let", "mut", "const", "struct", "enum", "impl", "trait", "use", "mod", "pub",
     "if", "else", "match", "for", "while", "loop", "return", "break", "continue",
     "true", "false", "self", "Self", "super", "as", "impl", "dyn", "unsafe"]
  | .JavaScript =>
    ["function", "const", "let", "var", "if", "else", "for", "while", "return", "class",
     "extends", "import", "export", "default", "async", "await", "true", "false", "null",
     "undefined", "this", "new", "typeof", "instanceof"]
  | .Python =>
    ["def", "class", "if", "else", "elif", "for", "while", "return", "import", "from",
     "as", "try", "except", "finally", "with", "lambda", "True", "False", "None",
     "and", "or", "not", "in", "is"]
  | .C | .Cpp =>
    ["int", "char", "float", "double", "void", "struct", "enum", "if", "else", "for",
     "while", "return", "break", "continue", "switch", "case", "default", "typedef",
     "static", "const", "extern", "volatile", "goto"]
  | .Java =>
    ["class", "interface", "public", "private", "protected", "static", "final", "void",
     "int", "String", "if", "else", "for", "while", "return", "new", "this", "super",
     "extends", "implements", "import", "package"]
  | .None => []

/-- The `//` line-comment guard of `tokenize_line`: which languages use `//`. -/
def isSlashComment (lang : Language) : Bool :=
  lang == .Rust || lang == .C || lang == .Cpp || lang == .Java || lang == .JavaScript

/-- The character class consumed by the number branch of `tokenize_line`. -/
def isNumChar (c : Char) : Bool :=
  c.isDigit || c == '.' || c == 'e' || c == 'E' || c == '+' || c == '-'

/-- The character class consumed by the identifier branch of `tokenize_line`. -/
def isIdentTail (c : Char) : Bool :=
  c.isAlphanum || c == '_'

/-- The inner `while` of the string branch of `tokenize_line`:
`while i < len && chars[i] != quote { if chars[i] == '\\' && i+1 < len { i += 2 } else { i += 1 } }`.
Returns the final `i`.  Fuel-indexed; the wrapper passes ample fuel. -/
def string_scan (chars : List Char) (quote : Char) : Nat → Nat → Nat
  | 0, i => i
  | fuel + 1, i =>
    if i < chars.length then
      let c := chars.getD i ' '
      if c == quote then i
      else if c == '\\' && decide (i + 1 < chars.length) then
        string_scan chars quote fuel (i + 2)
      else
        string_scan chars quote fuel (i + 1)
    else i

/-- A generic `while i < len && p chars[i] { i += 1 }`, used by the number and
identifier branches of `tokenize_line`. -/
def scan_while (chars : List Char) (p : Char → Bool) : Nat → Nat → Nat
  | 0, i => i
  | fuel + 1, i =>
    if i < chars.length then
      if p (chars.getD i ' ') then scan_while chars p fuel (i + 1) else i
    else i

/-- The main scan loop of `tokenize_line` (src/main.rs lines 123-185), one
recursive step per iteration of the Rust `while i < len` loop.  A token is
`(start, end, kind)` over character indices.  Note that the final
`i += 1` branch (any other character) emits no token. -/
def tokenize_from (chars : List Char) (lang : Language) (keywords : List String) :
    Nat → Nat → List (Nat × Nat × TokenType)
  | 0, _ => []
  | fuel + 1, i =>
    if i < chars.length then
      let c := chars.getD i ' '
      if c == '\x22' || c == '\x27' then
        let j0 := string_scan chars c (chars.length + 1) (i + 1)
        let j := if j0 < chars.length then j0 + 1 else j0
        (i, j, TokenType.String) :: tokenize_from chars lang keywords fuel j
      else if isSlashComment lang && decide (i + 1 < chars.length) && c == '/'
              && chars.getD (i + 1) ' ' == '/' then
        [(i, chars.length, TokenType.Comment)]
      else if lang == Language.Python && c == '#' then
        [(i, chars.length, TokenType.Comment)]
      else if c.isDigit then
        let j := scan_while chars isNumChar (chars.length + 1) i
        (i, j, TokenType.Number) :: tokenize_from chars lang keywords fuel j
      else if c.isAlpha || c == '_' then
        let j := scan_while chars isIdentTail (chars.length + 1) i
        let word := String.mk ((chars.take j).drop i)
        let tt := if keywords.any (fun kw => kw == word) then TokenType.Keyword
                  else TokenType.Normal
        (i, j, tt) :: tokenize_from chars lang keywords fuel j
      else
        tokenize_from chars lang keywords fuel (i + 1)
    else []

/-- `tokenize_line` from src/main.rs: run the scan from position 0. -/
def tokenize_line (line : List Char) (lang : Language) (keywords : List String) :
    List (Nat × Nat × TokenType) :=
  tokenize_from line lang keywords (line.length + 1) 0

/-- Sanity: the spec's §8 tokenizer example, a string token then a comment token. -/
theorem tokenize_spec_example :
    tokenize_line "\x22foo\x22 // bar".toList .Rust (get_keywords .Rust) =
      [(0, 5, TokenType.String), (6, 12, TokenType.Comment)] := by decide

theorem scan_while_ge (chars : List Char) (p : Char → Bool) :
    ∀ fuel i, i ≤ scan_while chars p fuel i := by
  intro fuel
  induction fuel with
  | zero => intro i; simp [scan_while]
  | succ fuel ih =>
    intro i
    simp only [scan_while]
    split
    · split
      · exact le_trans (Nat.le_succ i) (ih (i + 1))
      · exact le_refl i
    · exact le_refl i

theorem scan_while_le (chars : List Char) (p : Char → Bool) :
    ∀ fuel i, i ≤ chars.length → scan_while chars p fuel i ≤ chars.length := by
  intro fuel
  induction fuel with
  | zero => intro i hi; simpa [scan_while] using hi
  | succ fuel ih =>
    intro i hi
    simp only [scan_while]
    split
    case isTrue h =>
      split
      · exact ih (i + 1) h
      · exact hi
    case isFalse h => exact hi

theorem scan_while_succ (chars : List Char) (p : Char → Bool) (fuel i : Nat)
    (hi : i < chars.length) (hp : p (chars.getD i ' ') = true) :
    i + 1 ≤ scan_while chars p (fuel + 1) i := by
  simp only [scan_while]
  rw [if_pos hi, if_pos hp]
  exact scan_while_ge chars p fuel (i + 1)

theorem string_scan_ge (chars : List Char) (q : Char) :
    ∀ fuel i, i ≤ string_scan chars q fuel i := by
  intro fuel
  induction fuel with
  | zero => intro i; simp [string_scan]
  | succ fuel ih =>
    intro i
    simp only [string_scan]
    split
    · split
      · exact le_refl i
      · split
        · exact le_trans (Nat.le_add_right i 2) (ih (i + 2))
        · exact le_trans (Nat.le_succ i) (ih (i + 1))
    · exact le_refl i

theorem string_scan_le (chars : List Char) (q : Char) :
    ∀ fuel i, i ≤ chars.length → string_scan chars q fuel i ≤ chars.length := by
  intro fuel
  induction fuel with
  | zero => intro i hi; simpa [string_scan] using hi
  | succ fuel ih =>
    intro i hi
    simp only [string_scan]
    split
    case isTrue h =>
      split
      · exact hi
      · split
        case isTrue h2 =>
          have : i + 2 ≤ chars.length := by
            have := of_decide_eq_true (Bool.and_elim_right h2)
            omega
          exact ih (i + 2) this
        case isFalse h2 => exact ih (i + 1) h
    case isFalse h => exact hi

/-- Well-formedness of a token list starting at scan position `i`:
each token starts no earlier than `i`, is a nonempty span inside the line,
and the next token starts no earlier than this one ends. -/
def Chained (len : Nat) : Nat → List (Nat × Nat × TokenType) → Prop
  | _, [] => True
  | i, (s, e, _) :: rest => i ≤ s ∧ s < e ∧ e ≤ len ∧ Chained len e rest

theorem chained_le (len : Nat) :
    ∀ i j ts, Chained len j ts → i ≤ j → Chained len i ts := by
  intro i j ts
  cases ts with
  | nil => intro h _; trivial
  | cons hd tl =>
    obtain ⟨s, e, k⟩ := hd
    intro h hij
    exact ⟨le_trans hij h.1, h.2.1, h.2.2.1, h.2.2.2⟩

theorem tokenize_from_chained (chars : List Char) (lang : Language) (kw : List String) :
    ∀ fuel i, i ≤ chars.length → Chained chars.length i (tokenize_from chars lang kw fuel i) := by
  intro fuel
  induction fuel with
  | zero => intro i _; simp [tokenize_from, Chained]
  | succ fuel ih =>
    intro i hi
    simp only [tokenize_from]
    split
    case isFalse => simp [Chained]
    case isTrue hlen =>
      split
      case isTrue hq =>
        have h1 : i + 1 ≤ string_scan chars (chars.getD i ' ') (chars.length + 1) (i + 1) :=
          string_scan_ge _ _ _ _
        have h2 : string_scan chars (chars.getD i ' ') (chars.length + 1) (i + 1) ≤
            chars.length := string_scan_le _ _ _ _ hlen
        split
        case isTrue h3 =>
          exact ⟨le_refl i, by omega, by omega, ih _ (by omega)⟩
        case isFalse h3 =>
          exact ⟨le_refl i, by omega, h2, ih _ h2⟩
      case isFalse hq =>
        split
        case isTrue => exact ⟨le_refl i, hlen, le_refl _, trivial⟩
        case isFalse =>
          split
          case isTrue => exact ⟨le_refl i, hlen, le_refl _, trivial⟩
          case isFalse =>
            split
            case isTrue hdig =>
              have hp : isNumChar (chars.getD i ' ') = true := by
                simp only [isNumChar, hdig, Bool.true_or]
              have h1 := scan_while_succ chars isNumChar chars.length i hlen hp
              have h2 := scan_while_le chars isNumChar (chars.length + 1) i hi
              exact ⟨le_refl i, by omega, h2, ih _ h2⟩
            case isFalse hdig =>
              split
              case isTrue halpha =>
                have hp : isIdentTail (chars.getD i ' ') = true := by
                  rcases Bool.or_eq_true_iff.mp halpha with h | h
                  · simp only [isIdentTail, Char.isAlphanum, h, Bool.true_or]
                  · simp only [isIdentTail, h, Bool.or_true]
                have h1 := scan_while_succ chars isIdentTail chars.length i hlen hp
                have h2 := scan_while_le chars isIdentTail (chars.length + 1) i hi
                exact ⟨le_refl i, by omega, h2, ih _ h2⟩
              case isFalse halpha =>
                exact chained_le _ i (i + 1) _ (ih (i + 1) hlen) (Nat.le_succ i)

theorem chained_bounds (len : Nat) :
    ∀ i ts, Chained len i ts → ∀ t ∈ ts, i ≤ t.1 ∧ t.1 < t.2.1 ∧ t.2.1 ≤ len := by
  intro i ts
  induction ts generalizing i with
  | nil => intro _ t ht; cases ht
  | cons hd tl ihts =>
    obtain ⟨s, e, k⟩ := hd
    intro h t ht
    obtain ⟨h1, h2, h3, h4⟩ := h
    cases ht with
    | head => exact ⟨h1, h2, h3⟩
    | tail _ ht =>
      have hrec := ihts e h4 t ht
      exact ⟨by omega, hrec.2.1, hrec.2.2⟩

theorem chained_pairwise (len : Nat) :
    ∀ i ts, Chained len i ts → ts.Pairwise (fun a b => a.2.1 ≤ b.1) := by
  intro i ts
  induction ts generalizing i with
  | nil => intro _; exact List.Pairwise.nil
  | cons hd tl ih =>
    obtain ⟨s, e, k⟩ := hd
    intro h
    obtain ⟨h1, h2, h3, h4⟩ := h
    exact List.Pairwise.cons (fun b hb => (chained_bounds len e tl h4 b hb).1) (ih e h4)

/-- C10: for every input line and language, the token list returned by the
tokenizer is well-formed: every span is nonempty and inside the line, and
spans are pairwise disjoint in strictly increasing positional order
(each token ends no later than the next one starts). -/
theorem tokenize_line_wellformed (line : List Char) (lang : Language) (kw : List String) :
    (∀ t ∈ tokenize_line line lang kw, t.1 < t.2.1 ∧ t.2.1 ≤ line.length) ∧
      (tokenize_line line lang kw).Pairwise (fun a b => a.2.1 ≤ b.1) := by
  have h := tokenize_from_chained line lang kw (line.length + 1) 0 (Nat.zero_le _)
  exact ⟨fun t ht => ⟨(chained_bounds _ _ _ h t ht).2.1, (chained_bounds _ _ _ h t ht).2.2⟩,
    chained_pairwise _ _ _ h⟩

theorem tokenize_line_wellformed_witness :
    ((0 < 1 ∧ 1 ≤ 3) ∧
      (tokenize_line "a+1".toList .Rust (get_keywords .Rust)).Pairwise
        (fun a b => a.2.1 ≤ b.1)) :=
  ⟨(tokenize_line_wellformed "a+1".toList .Rust (get_keywords .Rust)).1
      (0, 1, TokenType.Normal) (by decide),
    (tokenize_line_wellformed "a+1".toList .Rust (get_keywords .Rust)).2⟩

/-- C3 counterexample: on the line "+" (whose only character is not a quote,
comment start, digit, or identifier character) the tokenizer returns NO
tokens at all — in particular no single-character Normal token covering
position 0, contrary to the claim. -/
theorem other_char_token_counterexample :
    tokenize_line "+".toList .Rust (get_keywords .Rust) = [] ∧
      ((0, 1, TokenType.Normal) ∈ tokenize_line "+".toList .Rust (get_keywords .Rust) → False) := by
  constructor
  · decide
  · decide

/-- C3 amended: at a scan position whose character is not a quote, not the
start of the language's line-comment marker, not a digit, and not alphabetic
or an underscore, the scan emits NO token and advances by exactly one
position. -/
theorem other_char_skipped (chars : List Char) (lang : Language) (kw : List String)
    (fuel i : Nat) (hi : i < chars.length)
    (hq : (chars.getD i ' ' == '\x22' || chars.getD i ' ' == '\x27') = false)
    (hsc : (isSlashComment lang && decide (i + 1 < chars.length) && chars.getD i ' ' == '/'
            && chars.getD (i + 1) ' ' == '/') = false)
    (hpy : (lang == Language.Python && chars.getD i ' ' == '#') = false)
    (hd : (chars.getD i ' ').isDigit = false)
    (ha : ((chars.getD i ' ').isAlpha || chars.getD i ' ' == '_') = false) :
    tokenize_from chars lang kw (fuel + 1) i = tokenize_from chars lang kw fuel (i + 1) := by
  have hq' : ¬((chars.getD i ' ' == '\x22' || chars.getD i ' ' == '\x27') = true) := by
    rw [hq]; decide
  have hsc' : ¬((isSlashComment lang && decide (i + 1 < chars.length) && chars.getD i ' ' == '/'
      && chars.getD (i + 1) ' ' == '/') = true) := by rw [hsc]; decide
  have hpy' : ¬((lang == Language.Python && chars.getD i ' ' == '#') = true) := by
    rw [hpy]; decide
  have hd' : ¬((chars.getD i ' ').isDigit = true) := by rw [hd]; decide
  have ha' : ¬(((chars.getD i ' ').isAlpha || chars.getD i ' ' == '_') = true) := by
    rw [ha]; decide
  simp only [tokenize_from]
  rw [if_pos hi, if_neg hq', if_neg hsc', if_neg hpy', if_neg hd', if_neg ha']

theorem other_char_skipped_witness :
    tokenize_from "+".toList .Rust (get_keywords .Rust) 2 0 =
      tokenize_from "+".toList .Rust (get_keywords .Rust) 1 1 :=
  other_char_skipped "+".toList .Rust (get_keywords .Rust) 1 0 (by decide) (by decide)
    (by decide) (by decide) (by decide) (by decide)

/-! ## Bracket matcher (`Editor::find_matching_bracket`, src/main.rs 1614-1683) -/

/-- The `match char_at` table at the head of `find_matching_bracket`:
`(open, close, forward)`, where for a closing bracket `open` is the bracket
itself and `close` its opening partner (the names follow the source).
`'\x7b'` and `'\x7d'` are the curly braces. -/
def bracket_info (c : Char) : Option (Char × Char × Bool) :=
  if c == '(' then some ('(', ')', true)
  else if c == ')' then some (')', '(', false)
  else if c == '[' then some ('[', ']', true)
  else if c == ']' then some (']', '[', false)
  else if c == '\x7b' then some ('\x7b', '\x7d', true)
  else if c == '\x7d' then some ('\x7d', '\x7b', false)
  else none

/-- The inner `while` of the forward scan over one line: examines `line[x]`,
bumping the depth on `open`, returning `Sum.inl x` on a `close` met at depth
0, else continuing at `x+1`.  `Sum.inr d` means the line was exhausted with
depth `d`.  Fuel-indexed; callers pass ample fuel. -/
def scan_line_fwd (line : List Char) (o cl : Char) : Nat → Nat → Nat → Sum Nat Nat
  | 0, _, depth => Sum.inr depth
  | fuel + 1, x, depth =>
    if x < line.length then
      let c := line.getD x ' '
      if c == o then scan_line_fwd line o cl fuel (x + 1) (depth + 1)
      else if c == cl then
        if depth == 0 then Sum.inl x
        else scan_line_fwd line o cl fuel (x + 1) (depth - 1)
      else scan_line_fwd line o cl fuel (x + 1) depth
    else Sum.inr depth

/-- The inner `while` of the backward scan over one line: as long as `x > 0`
it examines `line[x - 1]` and then decrements `x` (note: the initial `x` was
already `start.saturating_sub(1)`, so the character directly left of the
start is never examined). -/
def scan_line_bwd (line : List Char) (o cl : Char) : Nat → Nat → Nat → Sum Nat Nat
  | 0, _, depth => Sum.inr depth
  | fuel + 1, x, depth =>
    if x > 0 then
      let c := line.getD (x - 1) ' '
      if c == o then scan_line_bwd line o cl fuel (x - 1) (depth + 1)
      else if c == cl then
        if depth == 0 then Sum.inl (x - 1)
        else scan_line_bwd line o cl fuel (x - 1) (depth - 1)
      else scan_line_bwd line o cl fuel (x - 1) depth
    else Sum.inr depth

/-- The outer `loop` of `find_matching_bracket` in the forward direction:
scan line `y` from column `x`, then continue on the next line from column 0. -/
def scan_buf_fwd (buffer : List (List Char)) (o cl : Char) :
    Nat → Nat → Nat → Nat → Option (Nat × Nat)
  | 0, _, _, _ => none
  | fuel + 1, y, x, depth =>
    if y < buffer.length then
      let line := buffer.getD y []
      match scan_line_fwd line o cl (line.length + 1) x depth with
      | Sum.inl col => some (y, col)
      | Sum.inr d => scan_buf_fwd buffer o cl fuel (y + 1) 0 d
    else none

/-- The outer `loop` of `find_matching_bracket` in the backward direction:
scan line `y` down to column 0, then continue on the previous line from its
end (breaking at the first line). -/
def scan_buf_bwd (buffer : List (List Char)) (o cl : Char) :
    Nat → Nat → Nat → Nat → Option (Nat × Nat)
  | 0, _, _, _ => none
  | fuel + 1, y, x, depth =>
    if y < buffer.length then
      let line := buffer.getD y []
      match scan_line_bwd line o cl (x + 1) x depth with
      | Sum.inl col => some (y, col)
      | Sum.inr d =>
        if y == 0 then none
        else scan_buf_bwd buffer o cl fuel (y - 1) (buffer.getD (y - 1) []).length d
    else none

/-- `Editor::find_matching_bracket` (src/main.rs 1614-1683), as a function of
the buffer and the position of the bracket. -/
def find_matching_bracket (buffer : List (List Char)) (y x : Nat) : Option (Nat × Nat) :=
  if y ≥ buffer.length then none
  else
    let line := buffer.getD y []
    if x ≥ line.length then none
    else
      match bracket_info (line.getD x ' ') with
      | none => none
      | some (o, cl, fwd) =>
        if fwd then scan_buf_fwd buffer o cl (buffer.length + 1) y (x + 1) 0
        else scan_buf_bwd buffer o cl (buffer.length + 1) y (x - 1) 0

/-! ## The editor state and its operations

The structure keeps exactly the fields of `struct Editor` that the
operations embedded here read or write; fields of the source structure
that none of these operations touch (file tree, input modes, search state,
terminal pane, autocomplete, presence reporting, mouse state, scroll
diffing) are omitted.  `file_path` is the path as a string; `file_buffers`
is the `HashMap<PathBuf, Vec<Vec<char>>>` as an association list whose
lookup takes the most recent binding (insertion conses, which observably
equals the map's overwrite), and `dirty_files` the `HashSet<PathBuf>` as a
duplicate-free list. -/

structure Editor where
  buffer : List (List Char)
  cursor_x : Nat
  cursor_y : Nat
  scroll_y : Nat
  scroll_x : Nat
  file_path : Option String
  status : String
  dirty : Bool
  history : List (List (List Char))
  history_index : Nat
  history_limit : Nat
  language : Language
  cursor_locked : Bool
  selection_start : Option (Nat × Nat)
  selection_end : Option (Nat × Nat)
  clipboard : Option String
  is_selecting : Bool
  matched_bracket : Option (Nat × Nat)
  needs_full_redraw : Bool
  dirty_files : List String
  file_buffers : List (String × List (List Char))
deriving DecidableEq, Repr

/-- The field values given to the modelled fields in `Editor::new_with_path`
(src/main.rs 272-332), before any file is opened. -/
def mkEditor : Editor where
  buffer := [[]]
  cursor_x := 0
  cursor_y := 0
  scroll_y := 0
  scroll_x := 0
  file_path := none
  status := "Ctrl+O Tree | Ctrl+N File | Ctrl+M Folder | F2 Rename | Del Delete | Ctrl+S Save | Ctrl+F Find | Ctrl+G Go to Line | Shift+Arrow Select | Ctrl+C Copy | Ctrl+V Paste | Ctrl+Arrow Word | Ctrl+1 Terminal | Ctrl+Q Quit"
  dirty := true
  history := [[[]]]
  history_index := 0
  history_limit := 100
  language := Language.None
  cursor_locked := false
  selection_start := none
  selection_end := none
  clipboard := none
  is_selecting := false
  matched_bracket := none
  needs_full_redraw := true
  dirty_files := []
  file_buffers := []

/-- `Editor::mark_file_dirty` (src/main.rs 525-531). -/
def mark_file_dirty (e : Editor) : Editor :=
  let e := { e with dirty := true, needs_full_redraw := true }
  match e.file_path with
  | some p => { e with dirty_files := if p ∈ e.dirty_files then e.dirty_files else p :: e.dirty_files }
  | none => e

/-- `Editor::clear_selection` (src/main.rs 862-867): clears the selection
only when no selection drag is active. -/
def clear_selection (e : Editor) : Editor :=
  if e.is_selecting then e
  else { e with selection_start := none, selection_end := none }

/-- `Editor::update_bracket_matching` (src/main.rs 1685-1706).  Note the
early `return` when the cursor is at or past the end of its line: in that
case no bracket (not even the one directly to the left) is looked up. -/
def update_bracket_matching (e : Editor) : Editor :=
  let e := { e with matched_bracket := none }
  if e.cursor_y ≥ e.buffer.length then e
  else
    let line := e.buffer.getD e.cursor_y []
    if e.cursor_x ≥ line.length then e
    else
      match find_matching_bracket e.buffer e.cursor_y e.cursor_x with
      | some m => { e with matched_bracket := some m }
      | none =>
        if e.cursor_x > 0 then
          match find_matching_bracket e.buffer e.cursor_y (e.cursor_x - 1) with
          | some m => { e with matched_bracket := some m }
          | none => e
        else e

/-- `Editor::save_history_state` (src/main.rs 1008-1019): truncate the
history to `history_index + 1` entries, push a copy of the CURRENT buffer
(i.e. the state before the edit now being applied), bump the index, and
drop the oldest entry if over the capacity bound. -/
def save_history_state (e : Editor) : Editor :=
  let history := (e.history.take (e.history_index + 1)) ++ [e.buffer]
  let hidx := e.history_index + 1
  if history.length > e.history_limit then
    { e with history := history.drop 1, history_index := hidx - 1 }
  else
    { e with history := history, history_index := hidx }

/-- `Editor::undo` (src/main.rs 1021-1036). -/
def undo (e : Editor) : Editor :=
  if e.history_index > 0 then
    let hidx := e.history_index - 1
    let e := { e with history_index := hidx }
    match e.history[hidx]? with
    | some old_state =>
      let buffer := old_state
      let cy := if e.cursor_y ≥ buffer.length then buffer.length - 1 else e.cursor_y
      let cx := match buffer[cy]? with
        | some line => min e.cursor_x line.length
        | none => e.cursor_x
      { e with buffer := buffer, cursor_y := cy, cursor_x := cx,
               needs_full_redraw := true, dirty := true }
    | none => e
  else e

/-- `Editor::redo` (src/main.rs 1038-1053). -/
def redo (e : Editor) : Editor :=
  if e.history_index + 1 < e.history.length then
    let hidx := e.history_index + 1
    let e := { e with history_index := hidx }
    match e.history[hidx]? with
    | some new_state =>
      let buffer := new_state
      let cy := if e.cursor_y ≥ buffer.length then buffer.length - 1 else e.cursor_y
      let cx := match buffer[cy]? with
        | some line => min e.cursor_x line.length
        | none => e.cursor_x
      { e with buffer := buffer, cursor_y := cy, cursor_x := cx,
               needs_full_redraw := true, dirty := true }
    | none => e
  else e

/-- The `closing` table of `Editor::insert` (src/main.rs 1374-1381): the
auto-inserted partner of an opening delimiter.  `'\x7b'`/`'\x7d'` are the
curly braces, `'\x22'` the double and `'\x27'` the single quote. -/
def auto_close (c : Char) : Option Char :=
  if c == '(' then some ')'
  else if c == '[' then some ']'
  else if c == '\x7b' then some '\x7d'
  else if c == '\x22' then some '\x22'
  else if c == '\x27' then some '\x27'
  else none

/-- `Editor::insert` (src/main.rs 1371-1392): snapshot, insert `c` at the
cursor, advance the cursor, and insert the auto-close partner (if any)
right after the new cursor position. -/
def insert (e : Editor) (c : Char) : Editor :=
  let e := save_history_state e
  let line := (e.buffer.getD e.cursor_y []).insertIdx e.cursor_x c
  let cx := e.cursor_x + 1
  let line := match auto_close c with
    | some close => line.insertIdx cx close
    | none => line
  mark_file_dirty { e with buffer := e.buffer.set e.cursor_y line,
                           cursor_x := cx, cursor_locked := false }

/-- `Editor::backspace` (src/main.rs 1394-1411): in-line deletion of the
character left of the cursor, or, at column 0 of a non-first line, merging
the current line onto the end of the previous one. -/
def backspace (e : Editor) : Editor :=
  if e.cursor_x > 0 then
    let e := save_history_state e
    let cx := e.cursor_x - 1
    let line := (e.buffer.getD e.cursor_y []).eraseIdx cx
    mark_file_dirty { e with cursor_x := cx, buffer := e.buffer.set e.cursor_y line,
                             cursor_locked := false }
  else if e.cursor_y > 0 then
    let e := save_history_state e
    let current_line := e.buffer.getD e.cursor_y []
    let buffer := e.buffer.eraseIdx e.cursor_y
    let cy := e.cursor_y - 1
    let cx := (buffer.getD cy []).length
    let buffer := buffer.set cy ((buffer.getD cy []) ++ current_line)
    mark_file_dirty (update_bracket_matching
      { e with buffer := buffer, cursor_y := cy, cursor_x := cx, cursor_locked := false })
  else e

/-- `Editor::delete` (src/main.rs 1413-1427): in-line deletion of the
character under the cursor, or, at the end of a non-last line, merging the
next line onto the end of the current one. -/
def delete (e : Editor) : Editor :=
  if e.cursor_x < (e.buffer.getD e.cursor_y []).length then
    let e := save_history_state e
    let line := (e.buffer.getD e.cursor_y []).eraseIdx e.cursor_x
    mark_file_dirty { e with buffer := e.buffer.set e.cursor_y line, cursor_locked := false }
  else if e.cursor_x = (e.buffer.getD e.cursor_y []).length
      ∧ e.cursor_y + 1 < e.buffer.length then
    let e := save_history_state e
    let next_line := e.buffer.getD (e.cursor_y + 1) []
    let buffer := e.buffer.eraseIdx (e.cursor_y + 1)
    let buffer := buffer.set e.cursor_y ((buffer.getD e.cursor_y []) ++ next_line)
    mark_file_dirty (update_bracket_matching { e with buffer := buffer, cursor_locked := false })
  else e

/-- The leading-whitespace count loop of `calculate_indent_level`
(src/main.rs 1459-1468): a space counts 1, a tab 4, anything else stops. -/
def countIndentPrefix : List Char → Nat
  | [] => 0
  | c :: cs =>
    if c = ' ' then countIndentPrefix cs + 1
    else if c = '\t' then countIndentPrefix cs + 4
    else 0

/-- Rust `str::starts_with`, over the character lists the buffer stores. -/
def startsWithL (t pre : List Char) : Bool :=
  pre.isPrefixOf t

/-- Rust `str::ends_with`, over the character lists the buffer stores. -/
def endsWithL (t suf : List Char) : Bool :=
  suf.isSuffixOf t

/-- The Python arm of the `increase_indent` match in `calculate_indent_level`
(src/main.rs 1474-1483), over the trimmed previous line. -/
def python_increase (t : List Char) : Bool :=
  endsWithL t ":".toList ||
  startsWithL t "if ".toList || startsWithL t "elif ".toList || startsWithL t "else ".toList ||
  startsWithL t "for ".toList || startsWithL t "while ".toList ||
  startsWithL t "def ".toList || startsWithL t "class ".toList ||
  startsWithL t "try:".toList || startsWithL t "except ".toList ||
  startsWithL t "finally:".toList ||
  startsWithL t "with ".toList || startsWithL t "async ".toList ||
  t == "else:".toList || t == "elif:".toList || t == "except:".toList ||
  t == "finally:".toList || t == "try:".toList

/-- The C-family arm of the `increase_indent` match in
`calculate_indent_level` (src/main.rs 1484-1496).  The `\x7b` escapes are
the opening curly brace. -/
def cfamily_increase (t : List Char) : Bool :=
  endsWithL t " \x7b".toList || endsWithL t "\x7b".toList ||
  (startsWithL t "if ".toList && !(t.contains ';')) ||
  (startsWithL t "for ".toList && !(t.contains ';')) ||
  (startsWithL t "while ".toList && !(t.contains ';')) ||
  startsWithL t "fn ".toList || startsWithL t "impl ".toList ||
  startsWithL t "trait ".toList || startsWithL t "struct ".toList ||
  startsWithL t "enum ".toList || startsWithL t "match ".toList ||
  startsWithL t "unsafe ".toList || startsWithL t "loop ".toList ||
  startsWithL t "function ".toList || startsWithL t "class ".toList ||
  endsWithL t "=>".toList || endsWithL t "else \x7b".toList ||
  endsWithL t "try \x7b".toList || endsWithL t "catch \x7b".toList

/-- `Editor::calculate_indent_level` (src/main.rs 1452-1505).  Note that it
reads `buffer[cursor_y - 1]` — the line ABOVE the cursor's line — and
returns 0 whenever the cursor is on row 0. -/
def calculate_indent_level (e : Editor) : Nat :=
  if e.cursor_y = 0 then 0
  else
    let prev_line := e.buffer.getD (e.cursor_y - 1) []
    let prev_indent := countIndentPrefix prev_line
    let trimmed_prev := prev_line.dropWhile Char.isWhitespace
    let increase_indent :=
      match e.language with
      | .Python => python_increase trimmed_prev
      | .Rust | .JavaScript | .C | .Cpp | .Java => cfamily_increase trimmed_prev
      | .None => false
    if increase_indent then prev_indent + 4 else prev_indent

/-- `Editor::get_indent_string` (src/main.rs 1507-1509). -/
def get_indent_string (level : Nat) : String :=
  String.mk (List.replicate level ' ')

/-- `Editor::newline` (src/main.rs 1429-1450): split the current line at the
cursor, compute the indent level (with `cursor_y` still on the OLD row),
insert the split-off rest as the next line, move the cursor there, and
prepend the indent characters one by one at position 0 (bumping the cursor
once per character; prepending one-by-one reverses the indent string, which
is all spaces). -/
def newline (e : Editor) : Editor :=
  let e := save_history_state e
  let line := e.buffer.getD e.cursor_y []
  let rest := line.drop e.cursor_x
  let e := { e with buffer := e.buffer.set e.cursor_y (line.take e.cursor_x) }
  let indent_level := calculate_indent_level e
  let e := { e with buffer := e.buffer.insertIdx (e.cursor_y + 1) rest,
                    cursor_y := e.cursor_y + 1, cursor_x := 0 }
  let e :=
    if indent_level > 0 then
      let indent := (get_indent_string indent_level).toList
      { e with buffer := e.buffer.set e.cursor_y
                 (indent.reverse ++ e.buffer.getD e.cursor_y []),
               cursor_x := e.cursor_x + indent.length }
    else e
  mark_file_dirty (update_bracket_matching { e with cursor_locked := false })

/-! ## Word motions (`Editor::word_left` / `word_right`, src/main.rs 1708-1816) -/

/-- The `is_special_char` closure used by the word motions and by
`get_word_boundaries`: a fixed set of ASCII punctuation.  The escaped
characters are `\x7b` = open curly, `\x7d` = close curly, `\x60` =
backtick, `\x27` = single quote, `\x22` = double quote. -/
def is_special_char (c : Char) : Bool :=
  c == '.' || c == ',' || c == '[' || c == ']' || c == '\x7b' || c == '\x7d' ||
  c == '$' || c == '(' || c == ')' || c == ';' || c == ':' || c == '!' ||
  c == '?' || c == '@' || c == '#' || c == '%' || c == '^' || c == '&' ||
  c == '*' || c == '+' || c == '-' || c == '=' || c == '/' || c == '\\' ||
  c == '|' || c == '<' || c == '>' || c == '\x60' || c == '\x27' || c == '\x22'

/-- The space-or-tab test of the word motions' whitespace loops. -/
def is_space_tab (c : Char) : Bool :=
  c == ' ' || c == '\t'

/-- Word characters for the word motions: Rust `c.is_alphanumeric() || c == '_'`
(ASCII fragment, see the header note). -/
def isWordChar (c : Char) : Bool :=
  c.isAlphanum || c == '_'

/-- Length of the maximal prefix of `l` satisfying `p`.  A loop
`while x < len && p line[x] { x += 1 }` starting at `x` advances by
`runLen p (line.drop x)`, and `while x > 0 && p line[x-1] { x -= 1 }`
retreats by `runLen p ((line.take x).reverse)`. -/
def runLen (p : Char → Bool) : List Char → Nat
  | [] => 0
  | c :: cs => if p c then runLen p cs + 1 else 0

/-- `Editor::word_right` (src/main.rs 1762-1816). -/
def word_right (e : Editor) : Editor :=
  let line := e.buffer.getD e.cursor_y []
  if e.cursor_x ≥ line.length then
    if e.cursor_y + 1 < e.buffer.length then
      update_bracket_matching
        { e with cursor_y := e.cursor_y + 1, cursor_x := 0,
                 cursor_locked := false, dirty := true }
    else e
  else
    let x := e.cursor_x + runLen is_space_tab (line.drop e.cursor_x)
    if x ≥ line.length then
      update_bracket_matching
        { e with cursor_x := x, cursor_locked := false, dirty := true }
    else
      let current_char := line.getD x ' '
      let x :=
        if is_special_char current_char then x + 1
        else if isWordChar current_char then x + runLen isWordChar (line.drop x)
        else x
      update_bracket_matching
        { e with cursor_x := x, cursor_locked := false, dirty := true }

/-- `Editor::word_left` (src/main.rs 1708-1760). -/
def word_left (e : Editor) : Editor :=
  if e.cursor_x = 0 then
    if e.cursor_y > 0 then
      { e with cursor_y := e.cursor_y - 1,
               cursor_x := (e.buffer.getD (e.cursor_y - 1) []).length,
               cursor_locked := false, dirty := true }
    else e
  else
    let line := e.buffer.getD e.cursor_y []
    let x := e.cursor_x - runLen is_space_tab ((line.take e.cursor_x).reverse)
    if x = 0 then
      update_bracket_matching
        { e with cursor_x := x, cursor_locked := false, dirty := true }
    else
      let prev_char := line.getD (x - 1) ' '
      let x :=
        if is_special_char prev_char then x - 1
        else if isWordChar prev_char then x - runLen isWordChar ((line.take x).reverse)
        else x
      update_bracket_matching
        { e with cursor_x := x, cursor_locked := false, dirty := true }

/-! ## Paste, open, save -/

/-- The interior-lines loop of `Editor::paste` (src/main.rs 988-993): insert
each line below the cursor row, move the cursor onto it, and put the cursor
column at the end of the inserted line. -/
def paste_interior (ls : List String) (e : Editor) : Editor :=
  ls.foldl
    (fun acc l =>
      let buf := acc.buffer.insertIdx (acc.cursor_y + 1) l.toList
      { acc with buffer := buf, cursor_y := acc.cursor_y + 1,
                 cursor_x := (buf.getD (acc.cursor_y + 1) []).length })
    e

/-- The single-line character loop of `Editor::paste` (src/main.rs 974-978). -/
def paste_chars (cs : List Char) (line : List Char) (cx : Nat) : List Char × Nat :=
  cs.foldl (fun acc c => (acc.1.insertIdx acc.2 c, acc.2 + 1)) (line, cx)

/-- `Editor::paste` (src/main.rs 954-1006).  The system clipboard read is
abstracted by `system_clipboard`; the internal clipboard takes precedence,
as in the source.  Note that the interior-lines loop iterates over
`lines.iter().skip(1).take(lines.len() - 1)` — i.e. ALL lines after the
first — and the last line is then inserted once more with the split-off
rest appended. -/
def paste (e : Editor) (system_clipboard : Option String) : Editor :=
  let clipboard_text :=
    match e.clipboard with
    | some internal_text => some internal_text
    | none => system_clipboard
  match clipboard_text with
  | none => e
  | some text =>
    let e := save_history_state e
    let e := clear_selection e
    let normalized_text := (text.replace "\r\n" "\n").replace "\r" "\n"
    let lines := normalized_text.splitOn "\n"
    if lines.length = 1 then
      let chars := (lines.headD "").toList
      let line := e.buffer.getD e.cursor_y []
      let res := paste_chars chars line e.cursor_x
      mark_file_dirty { e with buffer := e.buffer.set e.cursor_y res.1, cursor_x := res.2 }
    else
      let line := e.buffer.getD e.cursor_y []
      let rest := line.drop e.cursor_x
      let e := { e with buffer := e.buffer.set e.cursor_y (line.take e.cursor_x) }
      let first_chars := (lines.headD "").toList
      let e := { e with
        buffer := e.buffer.set e.cursor_y ((e.buffer.getD e.cursor_y []) ++ first_chars),
        cursor_x := e.cursor_x + first_chars.length }
      let e := paste_interior ((lines.drop 1).take (lines.length - 1)) e
      match lines.getLast? with
      | some last_line =>
        let new_last_line := last_line.toList ++ rest
        mark_file_dirty { e with
          buffer := e.buffer.insertIdx (e.cursor_y + 1) new_last_line,
          cursor_y := e.cursor_y + 1,
          cursor_x := last_line.toList.length }
      | none => mark_file_dirty e

/-- `detect_language` (src/main.rs 66-80), as a function of the
lowercased file extension (`path.extension()` is abstracted: `none` means
the path has no extension). -/
def detect_language_ext : Option String → Language
  | some ext =>
    if ext == "rs" then .Rust
    else if ext == "js" || ext == "jsx" || ext == "mjs" then .JavaScript
    else if ext == "py" || ext == "pyw" then .Python
    else if ext == "c" then .C
    else if ext == "cpp" || ext == "cc" || ext == "cxx" || ext == "hpp" || ext == "hxx" then .Cpp
    else if ext == "java" then .Java
    else .None
  | none => .None

/-- The common tail of `Editor::open_file` (src/main.rs 509-522): set path,
language, cursor and scroll, clear the dirty flag, drop the path from the
dirty set, recompute bracket matching and push a history snapshot.
(`file_name` and the presence report are not modelled.) -/
def open_tail (e : Editor) (path : String) (ext : Option String) : Editor :=
  let e := { e with
    file_path := some path,
    language := detect_language_ext ext,
    cursor_x := 0, cursor_y := 0, scroll_y := 0, scroll_x := 0,
    needs_full_redraw := true, dirty := false,
    dirty_files := e.dirty_files.erase path }
  save_history_state (update_bracket_matching e)

/-- `Editor::open_file` (src/main.rs 492-523).  The I/O read
`fs::File::open(path)?.read_to_string(...)` is abstracted by `readResult`:
`none` models an I/O error (on which `?` returns early, after the old
buffer was already stashed in `file_buffers`), `some ls` the lines of the
file content (`s.lines()` gives `[]` for an empty file). -/
def open_file (e : Editor) (path : String) (ext : Option String)
    (readResult : Option (List (List Char))) : Editor :=
  let e :=
    match e.file_path with
    | some old_path => { e with file_buffers := (old_path, e.buffer) :: e.file_buffers }
    | none => e
  match e.file_buffers.lookup path with
  | some cached_buffer => open_tail { e with buffer := cached_buffer } path ext
  | none =>
    match readResult with
    | none => e
    | some ls =>
      let buffer := if ls.isEmpty then [[]] else ls
      open_tail { e with buffer := buffer,
                         file_buffers := (path, buffer) :: e.file_buffers } path ext

/-- `Editor::save` (src/main.rs 752-768).  The I/O write
`fs::write(path, txt)?` is abstracted by `writeOk`: on failure the `?`
returns early and nothing after it runs. -/
def save (e : Editor) (writeOk : Bool) : Editor :=
  match e.file_path with
  | none => e
  | some path =>
    if writeOk then
      { e with status := "Saved", needs_full_redraw := true, dirty := false,
               dirty_files := e.dirty_files.erase path,
               file_buffers := (path, e.buffer) :: e.file_buffers }
    else e

/-! ## Small list helpers -/

theorem getD_set_self {α : Type} (l : List α) (i : Nat) (x d : α) (h : i < l.length) :
    (l.set i x).getD i d = x := by
  induction l generalizing i with
  | nil => simp at h
  | cons hd tl ih =>
    cases i with
    | zero => rfl
    | succ n => exact ih n (by simpa using h)

theorem set_getD_self {α : Type} (l : List α) (i : Nat) (d : α) (h : i < l.length) :
    l.set i (l.getD i d) = l := by
  induction l generalizing i with
  | nil => simp at h
  | cons hd tl ih =>
    cases i with
    | zero => rfl
    | succ n => simpa using ih n (by simpa using h)

theorem getD_eraseIdx_lt {α : Type} (l : List α) (n i : Nat) (d : α) (h : i < n) :
    (l.eraseIdx n).getD i d = l.getD i d := by
  induction l generalizing n i with
  | nil => rfl
  | cons hd tl ih =>
    cases n with
    | zero => omega
    | succ m =>
      cases i with
      | zero => rfl
      | succ j => exact ih m j (by omega)

theorem length_le_insertIdx {α : Type} (l : List α) (n : Nat) (a : α) :
    l.length ≤ (l.insertIdx n a).length := by
  induction l generalizing n with
  | nil => cases n <;> simp
  | cons hd tl ih =>
    cases n with
    | zero => simp
    | succ m => simpa using ih m

/-! ## Field-preservation facts for the editor operations -/

theorem save_history_preserves (e : Editor) :
    (save_history_state e).buffer = e.buffer ∧
    (save_history_state e).cursor_x = e.cursor_x ∧
    (save_history_state e).cursor_y = e.cursor_y ∧
    (save_history_state e).file_path = e.file_path ∧
    (save_history_state e).file_buffers = e.file_buffers := by
  unfold save_history_state
  dsimp only
  split <;> exact ⟨rfl, rfl, rfl, rfl, rfl⟩

theorem mark_file_dirty_preserves (e : Editor) :
    (mark_file_dirty e).buffer = e.buffer ∧
    (mark_file_dirty e).cursor_x = e.cursor_x ∧
    (mark_file_dirty e).cursor_y = e.cursor_y ∧
    (mark_file_dirty e).history = e.history ∧
    (mark_file_dirty e).history_index = e.history_index ∧
    (mark_file_dirty e).history_limit = e.history_limit ∧
    (mark_file_dirty e).file_buffers = e.file_buffers := by
  unfold mark_file_dirty
  dsimp only
  split <;> exact ⟨rfl, rfl, rfl, rfl, rfl, rfl, rfl⟩

theorem update_bracket_preserves (e : Editor) :
    (update_bracket_matching e).buffer = e.buffer ∧
    (update_bracket_matching e).cursor_x = e.cursor_x ∧
    (update_bracket_matching e).cursor_y = e.cursor_y ∧
    (update_bracket_matching e).history = e.history ∧
    (update_bracket_matching e).history_index = e.history_index ∧
    (update_bracket_matching e).history_limit = e.history_limit ∧
    (update_bracket_matching e).file_buffers = e.file_buffers := by
  unfold update_bracket_matching
  dsimp only
  repeat' split
  all_goals exact ⟨rfl, rfl, rfl, rfl, rfl, rfl, rfl⟩

theorem clear_selection_preserves (e : Editor) :
    (clear_selection e).buffer = e.buffer ∧
    (clear_selection e).cursor_x = e.cursor_x ∧
    (clear_selection e).cursor_y = e.cursor_y := by
  unfold clear_selection
  split <;> exact ⟨rfl, rfl, rfl⟩

/-! ## C1: undo/redo round trip -/

/-- C1 (failing evaluation): `save_history_state` snapshots the buffer
BEFORE the edit mutates it, so the post-edit state is never recorded.
Starting from the fresh editor (buffer `[""]`): after `insert 'x'` the
buffer is `["x"]`; `undo` restores `[""]` — but `redo` then yields `[""]`
again, not the post-edit `["x"]`.  Moreover after a second edit
(`insert 'y'`, buffer `["xy"]`) a single `undo` lands on `[""]`, skipping
the intermediate state `["x"]`. -/
theorem undo_redo_history_eval :
    (insert mkEditor 'x').buffer = [['x']] ∧
    (undo (insert mkEditor 'x')).buffer = [[]] ∧
    (redo (undo (insert mkEditor 'x'))).buffer = [[]] ∧
    ((redo (undo (insert mkEditor 'x'))).buffer = (insert mkEditor 'x').buffer → False) ∧
    (insert (insert mkEditor 'x') 'y').buffer = [['x', 'y']] ∧
    (undo (insert (insert mkEditor 'x') 'y')).buffer = [[]] := by
  decide

/-! ## C2: insert / deleteBackward round trip -/

/-- C2 counterexample: inserting `'('` auto-inserts the closing `')'`, and
one `backspace` removes only the typed opener, leaving `")"` — the buffer
is NOT restored for opening delimiters. -/
theorem insert_backspace_counterexample :
    (backspace (insert mkEditor '(')).buffer = [[')']] ∧
    ((backspace (insert mkEditor '(')).buffer = mkEditor.buffer → False) := by
  decide

/-- C2 amended: for every character that is NOT an opening delimiter
(`(`, `[`, curly brace, `"`, `'`), inserting it and deleting backward once
restores buffer content and cursor position exactly; for opening delimiters
the auto-inserted closer survives the backspace (see the counterexample). -/
theorem insert_backspace_roundtrip (e : Editor) (c : Char)
    (hy : e.cursor_y < e.buffer.length)
    (hc : auto_close c = none) :
    (backspace (insert e c)).buffer = e.buffer ∧
    (backspace (insert e c)).cursor_x = e.cursor_x ∧
    (backspace (insert e c)).cursor_y = e.cursor_y := by
  obtain ⟨s1, s2, s3, -, -⟩ := save_history_preserves e
  have hbuf : (insert e c).buffer
      = e.buffer.set e.cursor_y ((e.buffer.getD e.cursor_y []).insertIdx e.cursor_x c) := by
    unfold insert
    rw [hc, (mark_file_dirty_preserves _).1]
    dsimp only
    rw [s1, s2, s3]
  have hcx : (insert e c).cursor_x = e.cursor_x + 1 := by
    unfold insert
    rw [hc, (mark_file_dirty_preserves _).2.1]
    dsimp only
    rw [s2]
  have hcy : (insert e c).cursor_y = e.cursor_y := by
    unfold insert
    rw [hc, (mark_file_dirty_preserves _).2.2.1]
    dsimp only
    rw [s3]
  have hpos : (insert e c).cursor_x > 0 := by omega
  obtain ⟨t1, t2, t3, -, -⟩ := save_history_preserves (insert e c)
  refine ⟨?_, ?_, ?_⟩
  · unfold backspace
    rw [if_pos hpos, (mark_file_dirty_preserves _).1]
    dsimp only
    rw [t1, t2, t3, hbuf, hcx, hcy]
    rw [getD_set_self _ _ _ _ hy, Nat.add_sub_cancel, List.eraseIdx_insertIdx, List.set_set]
    exact set_getD_self _ _ _ hy
  · unfold backspace
    rw [if_pos hpos, (mark_file_dirty_preserves _).2.1]
    dsimp only
    rw [t2, hcx]
    omega
  · unfold backspace
    rw [if_pos hpos, (mark_file_dirty_preserves _).2.2.1]
    dsimp only
    rw [t3, hcy]

theorem insert_backspace_roundtrip_witness :
    (backspace (insert mkEditor 'z')).buffer = mkEditor.buffer ∧
    (backspace (insert mkEditor 'z')).cursor_x = mkEditor.cursor_x ∧
    (backspace (insert mkEditor 'z')).cursor_y = mkEditor.cursor_y :=
  insert_backspace_roundtrip mkEditor 'z' (by decide) (by decide)

/-! ## C4: bracket matching -/

/-- C4: the spec's three concrete forward-direction examples hold, and the
depth-counting forward scan behaves as described.  The backward direction
is NOT symmetric, because the scan starts at `x.saturating_sub(1)` but
reads `line[current_x - 1]`, skipping the character directly left of the
bracket: on `"()"` the closer at column 1 finds NO match, and on `"(())"`
the closer at column 2 matches the OUTER opener at column 0 instead of the
inner one at column 1. -/
theorem find_matching_bracket_eval :
    find_matching_bracket ["(a(b)c)".toList] 0 0 = some (0, 6) ∧
    find_matching_bracket ["(a(b)c)".toList] 0 2 = some (0, 4) ∧
    find_matching_bracket ["(a(b)c)".toList] 0 1 = none ∧
    find_matching_bracket ["()".toList] 0 1 = none ∧
    find_matching_bracket ["(())".toList] 0 2 = some (0, 0) := by
  decide

/-! ## C6: newline auto-indentation -/

/-- The Python buffer `["if x:"]` with the cursor at the end of row 0. -/
def edIfLine : Editor :=
  { mkEditor with
    buffer := ["if x:".toList]
    cursor_x := 5
    language := .Python }

/-- The Python buffer `["if x:", "x = 1"]` with the cursor at the end of row 1. -/
def edAfterAssign : Editor :=
  { mkEditor with
    buffer := ["if x:".toList, "x = 1".toList]
    cursor_y := 1
    cursor_x := 5
    language := .Python }

/-- C6 (failing evaluation): `newline` calls `calculate_indent_level`
BEFORE `cursor_y` is moved to the new row, so the function examines
`buffer[cursor_y - 1]` — the line ABOVE the split line — instead of the
just-split previous line.  Pressing Enter at the end of the single Python
line `"if x:"` (row 0) produces an UNINDENTED empty second line, and
pressing Enter at the end of `"x = 1"` sitting below `"if x:"` produces a
line indented by 4. -/
theorem newline_indent_eval :
    (newline edIfLine).buffer = ["if x:".toList, []] ∧
    (newline edIfLine).cursor_x = 0 ∧
    (newline edAfterAssign).buffer
      = ["if x:".toList, "x = 1".toList, "    ".toList] := by
  decide

/-! ## C7: bracket-match recomputation and the cursor-after-bracket fallback -/

/-- The buffer `["(x)"]` with the cursor one past the `')'`, at end of line. -/
def edAfterParen : Editor :=
  { mkEditor with
    buffer := [['(', 'x', ')']]
    cursor_x := 3 }

/-- C7 counterexample: with buffer `"(x)"` and the cursor at column 3 (one
past the closing bracket, at end of line), `update_bracket_matching` yields
NO match even though the character immediately to the left is a bracket
whose partner exists (`find_matching_bracket` at column 2 yields (0,0)):
the function returns early whenever the cursor is at or past the line end,
without checking the character to the left. -/
theorem bracket_update_eol_counterexample :
    (update_bracket_matching edAfterParen).matched_bracket = none ∧
    find_matching_bracket [['(', 'x', ')']] 0 2 = some (0, 0) := by
  decide

/-- C7 amended: the left-neighbour fallback only happens when the cursor
lies strictly inside its line: if the character under the cursor exists but
is not a bracket and the cursor is not at column 0, the matcher reports
exactly the result of `find_matching_bracket` on the character immediately
to the left.  At or past the end of the line nothing is looked up at all
(see the counterexample). -/
theorem bracket_update_left_fallback (e : Editor)
    (hy : e.cursor_y < e.buffer.length)
    (hx : e.cursor_x < (e.buffer.getD e.cursor_y []).length)
    (hnb : bracket_info ((e.buffer.getD e.cursor_y []).getD e.cursor_x ' ') = none)
    (hx0 : 0 < e.cursor_x) :
    (update_bracket_matching e).matched_bracket =
      find_matching_bracket e.buffer e.cursor_y (e.cursor_x - 1) := by
  have hfind : find_matching_bracket e.buffer e.cursor_y e.cursor_x = none := by
    unfold find_matching_bracket
    rw [if_neg (by omega), if_neg (by omega), hnb]
  unfold update_bracket_matching
  rw [if_neg (by omega : ¬ e.cursor_y ≥ e.buffer.length),
      if_neg (by omega : ¬ e.cursor_x ≥ (e.buffer.getD e.cursor_y []).length), hfind]
  rw [if_pos hx0]
  cases hm : find_matching_bracket e.buffer e.cursor_y (e.cursor_x - 1) <;> rfl

/-- The buffer `["(x)"]` with the cursor on the `'x'`. -/
def edOnX : Editor :=
  { mkEditor with
    buffer := [['(', 'x', ')']]
    cursor_x := 1 }

theorem bracket_update_left_fallback_witness :
    (update_bracket_matching edOnX).matched_bracket =
      find_matching_bracket edOnX.buffer edOnX.cursor_y (edOnX.cursor_x - 1) :=
  bracket_update_left_fallback edOnX (by decide) (by decide) (by decide) (by decide)

/-! ## C9: I/O failures -/

/-- C9 counterexample: a failed write in `save` leaves the editor state
COMPLETELY unchanged — in particular the status line keeps its previous
content, so no transient status message reports the failure (the caller
discards the error with `let _ = ed.save()`). -/
theorem io_error_status_counterexample :
    save { mkEditor with file_path := some "a.rs", status := "Ready" } false
      = { mkEditor with file_path := some "a.rs", status := "Ready" } := by
  decide

theorem lookup_none_of_no_key {β : Type} (path : String) :
    ∀ l : List (String × β), (∀ q ∈ l, q.1 ≠ path) → l.lookup path = none := by
  intro l
  induction l with
  | nil => intro _; rfl
  | cons hd tl ih =>
    intro h
    have hne : path ≠ hd.1 := fun he => h hd (by simp) (by rw [he])
    obtain ⟨k, v⟩ := hd
    have hbeq : (path == k) = false := beq_eq_false_iff_ne.mpr (by simpa using hne)
    simp only [List.lookup, hbeq]
    exact ih fun q hq => h q (by simp [hq])

/-- C9 amended: I/O failures on open and save are indeed non-fatal and
leave the Buffer in its prior state, but NO status message reports the
failure: the error is silently discarded and the status line keeps its
previous content.  (For `open_file` the hypotheses state that the target
path is not already cached, i.e. the read actually happens.) -/
theorem io_error_silent (e : Editor) (path : String) (ext : Option String)
    (hmiss : ∀ q ∈ e.file_buffers, q.1 ≠ path)
    (hpath : e.file_path ≠ some path) :
    ((open_file e path ext none).buffer = e.buffer ∧
     (open_file e path ext none).status = e.status) ∧
    ((save e false).buffer = e.buffer ∧ (save e false).status = e.status) := by
  constructor
  · unfold open_file
    cases hfp : e.file_path with
    | none =>
      dsimp only
      rw [lookup_none_of_no_key path _ hmiss]
      exact ⟨rfl, rfl⟩
    | some old_path =>
      have hold : old_path ≠ path := fun he => hpath (by rw [hfp, he])
      have hlk : ((old_path, e.buffer) :: e.file_buffers).lookup path = none := by
        apply lookup_none_of_no_key
        intro q hq
        rcases List.mem_cons.mp hq with hq | hq
        · rw [hq]; exact hold
        · exact hmiss q hq
      dsimp only
      rw [hlk]
      exact ⟨rfl, rfl⟩
  · unfold save
    cases hfp : e.file_path with
    | none => exact ⟨rfl, rfl⟩
    | some p => exact ⟨rfl, rfl⟩

theorem io_error_silent_witness :
    ((open_file mkEditor "a.rs" (some "rs") none).buffer = mkEditor.buffer ∧
     (open_file mkEditor "a.rs" (some "rs") none).status = mkEditor.status) ∧
    ((save mkEditor false).buffer = mkEditor.buffer ∧
     (save mkEditor false).status = mkEditor.status) :=
  io_error_silent mkEditor "a.rs" (some "rs") (by decide) (by decide)

/-! ## C5: the buffer never becomes empty -/

/-- The state invariant the editor maintains across operations: nonempty
buffer, in-range cursor, well-formed history (nonempty, index in range,
only nonempty snapshots), and only nonempty buffers cached per file. -/
def Inv (e : Editor) : Prop :=
  e.buffer ≠ [] ∧
  e.cursor_y < e.buffer.length ∧
  e.cursor_x ≤ (e.buffer.getD e.cursor_y []).length ∧
  e.history ≠ [] ∧
  e.history_index < e.history.length ∧
  (∀ b ∈ e.history, b ≠ []) ∧
  (∀ p ∈ e.file_buffers, p.2 ≠ [])

theorem inv_save_history (e : Editor) (h : Inv e) : Inv (save_history_state e) := by
  obtain ⟨h1, h2, h3, h4, h5, h6, h7⟩ := h
  have hlen : (e.history.take (e.history_index + 1)).length = e.history_index + 1 := by
    rw [List.length_take]; omega
  have hmem : ∀ b ∈ e.history.take (e.history_index + 1) ++ [e.buffer], b ≠ [] := by
    intro b hb
    rcases List.mem_append.mp hb with hb | hb
    · exact h6 b (List.mem_of_mem_take hb)
    · rw [List.mem_singleton.mp hb]; exact h1
  have hlen2 : (e.history.take (e.history_index + 1) ++ [e.buffer]).length
      = e.history_index + 2 := by
    simp [hlen]
  unfold save_history_state
  dsimp only
  split
  case isTrue hcap =>
    unfold Inv
    refine ⟨h1, h2, h3, ?_, ?_, ?_, h7⟩
    · apply List.ne_nil_of_length_pos
      rw [List.length_drop, hlen2]
      omega
    · show e.history_index + 1 - 1 <
        ((e.history.take (e.history_index + 1) ++ [e.buffer]).drop 1).length
      rw [List.length_drop, hlen2]
      omega
    · intro b hb
      exact hmem b (List.mem_of_mem_drop hb)
  case isFalse hcap =>
    unfold Inv
    refine ⟨h1, h2, h3, ?_, ?_, hmem, h7⟩
    · apply List.ne_nil_of_length_pos
      rw [hlen2]; omega
    · show e.history_index + 1 < (e.history.take (e.history_index + 1) ++ [e.buffer]).length
      rw [hlen2]; omega

theorem inv_mark_file_dirty (e : Editor) (h : Inv e) : Inv (mark_file_dirty e) := by
  obtain ⟨p1, p2, p3, p4, p5, -, p7⟩ := mark_file_dirty_preserves e
  unfold Inv at h ⊢
  rw [p1, p2, p3, p4, p5, p7]
  exact h

theorem inv_update_bracket (e : Editor) (h : Inv e) : Inv (update_bracket_matching e) := by
  obtain ⟨p1, p2, p3, p4, p5, -, p7⟩ := update_bracket_preserves e
  unfold Inv at h ⊢
  rw [p1, p2, p3, p4, p5, p7]
  exact h

theorem inv_insert (e : Editor) (c : Char) (h : Inv e) : Inv (insert e c) := by
  have hs := inv_save_history e h
  obtain ⟨h1, h2, h3, h4, h5, h6, h7⟩ := hs
  unfold insert
  dsimp only
  apply inv_mark_file_dirty
  unfold Inv
  refine ⟨?_, ?_, ?_, h4, h5, h6, h7⟩
  · apply List.ne_nil_of_length_pos
    rw [List.length_set]
    exact List.length_pos.mpr h1
  · rw [List.length_set]
    exact h2
  · rw [getD_set_self _ _ _ _ h2]
    cases hac : auto_close c with
    | none =>
      dsimp only
      rw [List.length_insertIdx _ _ h3]
      omega
    | some close =>
      dsimp only
      rw [List.length_insertIdx, List.length_insertIdx _ _ h3]
      · omega
      · rw [List.length_insertIdx _ _ h3]
        omega

theorem inv_backspace (e : Editor) (h : Inv e) : Inv (backspace e) := by
  obtain ⟨s1, s2, s3, -, -⟩ := save_history_preserves e
  have g1 := h.1
  have g2 := h.2.1
  have g3 := h.2.2.1
  have hs := inv_save_history e h
  obtain ⟨-, -, -, h4, h5, h6, h7⟩ := hs
  unfold backspace
  split
  case isTrue hpos =>
    dsimp only
    apply inv_mark_file_dirty
    unfold Inv
    dsimp only
    simp only [s1, s2, s3]
    refine ⟨?_, ?_, ?_, h4, h5, h6, h7⟩
    · apply List.ne_nil_of_length_pos
      rw [List.length_set]
      exact List.length_pos.mpr g1
    · rw [List.length_set]
      exact g2
    · rw [getD_set_self _ _ _ _ g2]
      rw [List.length_eraseIdx_of_lt (by omega)]
      omega
  case isFalse hzero =>
    split
    case isTrue hypos =>
      dsimp only
      apply inv_mark_file_dirty
      apply inv_update_bracket
      unfold Inv
      dsimp only
      simp only [s1, s2, s3]
      refine ⟨?_, ?_, ?_, h4, h5, h6, h7⟩
      · apply List.ne_nil_of_length_pos
        rw [List.length_set, List.length_eraseIdx_of_lt (by omega)]
        omega
      · rw [List.length_set, List.length_eraseIdx_of_lt (by omega)]
        omega
      · rw [getD_set_self _ _ _ _ (by rw [List.length_eraseIdx_of_lt (by omega)]; omega)]
        rw [List.length_append]
        omega
    case isFalse => exact h

theorem inv_delete (e : Editor) (h : Inv e) : Inv (delete e) := by
  obtain ⟨s1, s2, s3, -, -⟩ := save_history_preserves e
  have g1 := h.1
  have g2 := h.2.1
  have g3 := h.2.2.1
  have hs := inv_save_history e h
  obtain ⟨-, -, -, h4, h5, h6, h7⟩ := hs
  unfold delete
  split
  case isTrue hlt =>
    dsimp only
    apply inv_mark_file_dirty
    unfold Inv
    dsimp only
    simp only [s1, s2, s3]
    refine ⟨?_, ?_, ?_, h4, h5, h6, h7⟩
    · apply List.ne_nil_of_length_pos
      rw [List.length_set]
      exact List.length_pos.mpr g1
    · rw [List.length_set]
      exact g2
    · rw [getD_set_self _ _ _ _ g2]
      rw [List.length_eraseIdx_of_lt (by omega)]
      omega
  case isFalse hge =>
    split
    case isTrue hand =>
      obtain ⟨heq, hynext⟩ := hand
      dsimp only
      apply inv_mark_file_dirty
      apply inv_update_bracket
      unfold Inv
      dsimp only
      simp only [s1, s2, s3]
      refine ⟨?_, ?_, ?_, h4, h5, h6, h7⟩
      · apply List.ne_nil_of_length_pos
        rw [List.length_set, List.length_eraseIdx_of_lt (by omega)]
        omega
      · rw [List.length_set, List.length_eraseIdx_of_lt (by omega)]
        omega
      · rw [getD_set_self _ _ _ _ (by rw [List.length_eraseIdx_of_lt (by omega)]; omega)]
        rw [List.length_append]
        rw [getD_eraseIdx_lt _ _ _ _ (by omega)]
        omega
    case isFalse => exact h

theorem inv_newline (e : Editor) (h : Inv e) : Inv (newline e) := by
  obtain ⟨s1, s2, s3, -, -⟩ := save_history_preserves e
  have g1 := h.1
  have g2 := h.2.1
  have g3 := h.2.2.1
  have hs := inv_save_history e h
  obtain ⟨-, -, -, h4, h5, h6, h7⟩ := hs
  unfold newline
  dsimp only
  apply inv_mark_file_dirty
  apply inv_update_bracket
  split
  case isTrue hpos =>
    unfold Inv
    dsimp only
    simp only [s1, s2, s3]
    have hins : ((e.buffer.set e.cursor_y
          ((e.buffer.getD e.cursor_y []).take e.cursor_x)).insertIdx
        (e.cursor_y + 1) ((e.buffer.getD e.cursor_y []).drop e.cursor_x)).length
        = e.buffer.length + 1 := by
      rw [List.length_insertIdx _ _ (by rw [List.length_set]; omega), List.length_set]
    refine ⟨?_, ?_, ?_, h4, h5, h6, h7⟩
    · apply List.ne_nil_of_length_pos
      rw [List.length_set, hins]
      omega
    · rw [List.length_set, hins]
      omega
    · rw [getD_set_self _ _ _ _ (by rw [hins]; omega)]
      rw [List.length_append, List.length_reverse]
      omega
  case isFalse hpos =>
    unfold Inv
    dsimp only
    simp only [s1, s2, s3]
    have hins : ((e.buffer.set e.cursor_y
          ((e.buffer.getD e.cursor_y []).take e.cursor_x)).insertIdx
        (e.cursor_y + 1) ((e.buffer.getD e.cursor_y []).drop e.cursor_x)).length
        = e.buffer.length + 1 := by
      rw [List.length_insertIdx _ _ (by rw [List.length_set]; omega), List.length_set]
    refine ⟨?_, ?_, ?_, h4, h5, h6, h7⟩
    · apply List.ne_nil_of_length_pos
      rw [hins]
      omega
    · rw [hins]
      omega
    · exact Nat.zero_le _

theorem inv_undo (e : Editor) (h : Inv e) : Inv (undo e) := by
  obtain ⟨h1, h2, h3, h4, h5, h6, h7⟩ := h
  unfold undo
  split
  case isFalse => exact ⟨h1, h2, h3, h4, h5, h6, h7⟩
  case isTrue hpos =>
    dsimp only
    split
    case h_1 old heq =>
      have hmem : old ∈ e.history := by
        obtain ⟨hlt, hget⟩ := List.getElem?_eq_some_iff.mp heq
        rw [← hget]
        exact List.getElem_mem hlt
      have hne : old ≠ [] := h6 old hmem
      have hol : 0 < old.length := List.length_pos.mpr hne
      have hcy : (if e.cursor_y ≥ old.length then old.length - 1 else e.cursor_y) <
          old.length := by
        split <;> omega
      unfold Inv
      refine ⟨hne, hcy, ?_, h4, by dsimp only; omega, h6, h7⟩
      split
      case h_1 line heq2 =>
        rw [List.getD_eq_getElem?_getD, heq2]
        exact Nat.min_le_right _ _
      case h_2 heq2 =>
        rw [List.getElem?_eq_none_iff] at heq2
        omega
    case h_2 heq =>
      rw [List.getElem?_eq_none_iff] at heq
      exact ⟨h1, h2, h3, h4, by dsimp only; omega, h6, h7⟩

theorem inv_redo (e : Editor) (h : Inv e) : Inv (redo e) := by
  obtain ⟨h1, h2, h3, h4, h5, h6, h7⟩ := h
  unfold redo
  split
  case isFalse => exact ⟨h1, h2, h3, h4, h5, h6, h7⟩
  case isTrue hpos =>
    dsimp only
    split
    case h_1 old heq =>
      have hmem : old ∈ e.history := by
        obtain ⟨hlt, hget⟩ := List.getElem?_eq_some_iff.mp heq
        rw [← hget]
        exact List.getElem_mem hlt
      have hne : old ≠ [] := h6 old hmem
      have hol : 0 < old.length := List.length_pos.mpr hne
      have hcy : (if e.cursor_y ≥ old.length then old.length - 1 else e.cursor_y) <
          old.length := by
        split <;> omega
      unfold Inv
      refine ⟨hne, hcy, ?_, h4, by dsimp only; omega, h6, h7⟩
      split
      case h_1 line heq2 =>
        rw [List.getD_eq_getElem?_getD, heq2]
        exact Nat.min_le_right _ _
      case h_2 heq2 =>
        rw [List.getElem?_eq_none_iff] at heq2
        omega
    case h_2 heq =>
      rw [List.getElem?_eq_none_iff] at heq
      exact ⟨h1, h2, h3, h4, hpos, h6, h7⟩

theorem lookup_val_mem {β : Type} (path : String) :
    ∀ (l : List (String × β)) (v : β), l.lookup path = some v → ∃ k, (k, v) ∈ l := by
  intro l
  induction l with
  | nil => intro v hv; cases hv
  | cons hd tl ih =>
    intro v hv
    obtain ⟨k, b⟩ := hd
    by_cases hk : (path == k) = true
    · simp only [List.lookup, hk] at hv
      exact ⟨k, by rw [← Option.some_inj.mp hv]; exact List.mem_cons_self _ _⟩
    · have hk' : (path == k) = false := by
        cases hpk : (path == k) with
        | true => exact absurd hpk hk
        | false => rfl
      simp only [List.lookup, hk'] at hv
      obtain ⟨k', hm⟩ := ih v hv
      exact ⟨k', List.mem_cons_of_mem _ hm⟩

theorem open_tail_buffer (e : Editor) (path : String) (ext : Option String) :
    (open_tail e path ext).buffer = e.buffer := by
  unfold open_tail
  rw [(save_history_preserves _).1, (update_bracket_preserves _).1]

theorem inv_open_tail (e : Editor) (path : String) (ext : Option String)
    (hb : e.buffer ≠ []) (hh4 : e.history ≠ []) (hh5 : e.history_index < e.history.length)
    (hh6 : ∀ b ∈ e.history, b ≠ []) (hh7 : ∀ p ∈ e.file_buffers, p.2 ≠ []) :
    Inv (open_tail e path ext) := by
  unfold open_tail
  dsimp only
  apply inv_save_history
  apply inv_update_bracket
  exact ⟨hb, List.length_pos.mpr hb, Nat.zero_le _, hh4, hh5, hh6, hh7⟩

theorem inv_open (e : Editor) (path : String) (ext : Option String)
    (rr : Option (List (List Char))) (h : Inv e) : Inv (open_file e path ext rr) := by
  obtain ⟨h1, h2, h3, h4, h5, h6, h7⟩ := h
  unfold open_file
  cases hfp : e.file_path with
  | none =>
    dsimp only
    cases hlk : e.file_buffers.lookup path with
    | some cached =>
      dsimp only
      obtain ⟨k, hm⟩ := lookup_val_mem path _ _ hlk
      exact inv_open_tail _ path ext (h7 (k, cached) hm) h4 h5 h6 h7
    | none =>
      dsimp only
      cases rr with
      | none => exact ⟨h1, h2, h3, h4, h5, h6, h7⟩
      | some ls =>
        dsimp only
        have hbne : (if ls.isEmpty then [[]] else ls) ≠ ([] : List (List Char)) := by
          split
          · simp
          case isFalse hne => exact fun hc => hne (by rw [hc]; rfl)
        apply inv_open_tail
        · exact hbne
        · exact h4
        · exact h5
        · exact h6
        · intro p hp
          rcases List.mem_cons.mp hp with hp | hp
          · rw [hp]; exact hbne
          · exact h7 p hp
  | some old_path =>
    dsimp only
    have h7' : ∀ p ∈ (old_path, e.buffer) :: e.file_buffers, p.2 ≠ [] := by
      intro p hp
      rcases List.mem_cons.mp hp with hp | hp
      · rw [hp]; exact h1
      · exact h7 p hp
    cases hlk : ((old_path, e.buffer) :: e.file_buffers).lookup path with
    | some cached =>
      dsimp only
      obtain ⟨k, hm⟩ := lookup_val_mem path _ _ hlk
      exact inv_open_tail _ path ext (h7' (k, cached) hm) h4 h5 h6 h7'
    | none =>
      dsimp only
      cases rr with
      | none => exact ⟨h1, h2, h3, h4, h5, h6, h7'⟩
      | some ls =>
        dsimp only
        have hbne : (if ls.isEmpty then [[]] else ls) ≠ ([] : List (List Char)) := by
          split
          · simp
          case isFalse hne => exact fun hc => hne (by rw [hc]; rfl)
        apply inv_open_tail
        · exact hbne
        · exact h4
        · exact h5
        · exact h6
        · intro p hp
          rcases List.mem_cons.mp hp with hp | hp
          · rw [hp]; exact hbne
          · exact h7' p hp

/-- An empty file (read result `some []`, no cached buffer for the path)
yields exactly one empty line. -/
theorem open_empty_file (e : Editor) (path : String) (ext : Option String)
    (hmiss : ∀ q ∈ e.file_buffers, q.1 ≠ path)
    (hpath : e.file_path ≠ some path) :
    (open_file e path ext (some [])).buffer = [[]] := by
  unfold open_file
  cases hfp : e.file_path with
  | none =>
    dsimp only
    rw [lookup_none_of_no_key path _ hmiss]
    dsimp only
    rw [open_tail_buffer]
    rfl
  | some old_path =>
    have hold : old_path ≠ path := fun he => hpath (by rw [hfp, he])
    have hlk : ((old_path, e.buffer) :: e.file_buffers).lookup path = none := by
      apply lookup_none_of_no_key
      intro q hq
      rcases List.mem_cons.mp hq with hq | hq
      · rw [hq]; exact hold
      · exact hmiss q hq
    dsimp only
    rw [hlk]
    dsimp only
    rw [open_tail_buffer]
    rfl

theorem paste_interior_len (n : Nat) :
    ∀ (ls : List String) (acc : Editor), n ≤ acc.buffer.length →
      n ≤ (paste_interior ls acc).buffer.length := by
  intro ls
  induction ls with
  | nil => intro acc hacc; exact hacc
  | cons hd tl ih =>
    intro acc hacc
    show n ≤ (paste_interior tl _).buffer.length
    apply ih
    dsimp only
    calc n ≤ acc.buffer.length := hacc
      _ ≤ _ := length_le_insertIdx _ _ _

theorem paste_buffer_len (e : Editor) (sys : Option String) (h1 : e.buffer ≠ []) :
    1 ≤ (paste e sys).buffer.length := by
  have hpos : 1 ≤ e.buffer.length := List.length_pos.mpr h1
  unfold paste
  dsimp only
  split
  case h_1 => exact hpos
  case h_2 text heq =>
    have hcs : (clear_selection (save_history_state e)).buffer = e.buffer := by
      rw [(clear_selection_preserves _).1, (save_history_preserves _).1]
    split
    case isTrue hone =>
      rw [(mark_file_dirty_preserves _).1]
      dsimp only
      rw [List.length_set, hcs]
      exact hpos
    case isFalse hmulti =>
      split
      case h_1 last_line hlast =>
        rw [(mark_file_dirty_preserves _).1]
        dsimp only
        calc 1 ≤ e.buffer.length := hpos
          _ ≤ (paste_interior _ _).buffer.length := by
              apply paste_interior_len
              dsimp only
              rw [List.length_set, List.length_set, hcs]
          _ ≤ _ := length_le_insertIdx _ _ _
      case h_2 hlast =>
        rw [(mark_file_dirty_preserves _).1]
        apply paste_interior_len
        dsimp only
        rw [List.length_set, List.length_set, hcs]
        exact hpos

/-- C5: the buffer always keeps at least one line.  Under the editor's
state invariant `Inv` (which holds for the fresh editor and is preserved),
every edit (character insert, backspace, delete, newline, paste), undo,
redo and file open leaves the buffer with length ≥ 1; opening an empty
file (read result `some []`, path not cached) yields exactly one empty
line. -/
theorem buffer_always_nonempty (e : Editor) (c : Char) (sys : Option String)
    (path : String) (ext : Option String) (rr : Option (List (List Char)))
    (h : Inv e) :
    (1 ≤ (insert e c).buffer.length ∧ Inv (insert e c)) ∧
    (1 ≤ (backspace e).buffer.length ∧ Inv (backspace e)) ∧
    (1 ≤ (delete e).buffer.length ∧ Inv (delete e)) ∧
    (1 ≤ (newline e).buffer.length ∧ Inv (newline e)) ∧
    (1 ≤ (undo e).buffer.length ∧ Inv (undo e)) ∧
    (1 ≤ (redo e).buffer.length ∧ Inv (redo e)) ∧
    1 ≤ (paste e sys).buffer.length ∧
    (1 ≤ (open_file e path ext rr).buffer.length ∧ Inv (open_file e path ext rr)) ∧
    ((∀ q ∈ e.file_buffers, q.1 ≠ path) → e.file_path ≠ some path →
      (open_file e path ext (some [])).buffer = [[]]) ∧
    Inv mkEditor := by
  have hlen : ∀ e' : Editor, Inv e' → 1 ≤ e'.buffer.length :=
    fun e' he' => List.length_pos.mpr he'.1
  refine ⟨⟨hlen _ ?_, ?_⟩, ⟨hlen _ ?_, ?_⟩, ⟨hlen _ ?_, ?_⟩, ⟨hlen _ ?_, ?_⟩,
      ⟨hlen _ ?_, ?_⟩, ⟨hlen _ ?_, ?_⟩, ?_, ⟨hlen _ ?_, ?_⟩, ?_, ?_⟩
  · exact inv_insert e c h
  · exact inv_insert e c h
  · exact inv_backspace e h
  · exact inv_backspace e h
  · exact inv_delete e h
  · exact inv_delete e h
  · exact inv_newline e h
  · exact inv_newline e h
  · exact inv_undo e h
  · exact inv_undo e h
  · exact inv_redo e h
  · exact inv_redo e h
  · exact paste_buffer_len e sys h.1
  · exact inv_open e path ext rr h
  · exact inv_open e path ext rr h
  · exact fun hmiss hpath => open_empty_file e path ext hmiss hpath
  · unfold Inv
    decide

theorem buffer_always_nonempty_witness :
    (1 ≤ (insert mkEditor 'a').buffer.length ∧ Inv (insert mkEditor 'a')) ∧
    (1 ≤ (backspace mkEditor).buffer.length ∧ Inv (backspace mkEditor)) ∧
    (1 ≤ (delete mkEditor).buffer.length ∧ Inv (delete mkEditor)) ∧
    (1 ≤ (newline mkEditor).buffer.length ∧ Inv (newline mkEditor)) ∧
    (1 ≤ (undo mkEditor).buffer.length ∧ Inv (undo mkEditor)) ∧
    (1 ≤ (redo mkEditor).buffer.length ∧ Inv (redo mkEditor)) ∧
    1 ≤ (paste mkEditor none).buffer.length ∧
    (1 ≤ (open_file mkEditor "f.py" (some "py") (some [])).buffer.length ∧
      Inv (open_file mkEditor "f.py" (some "py") (some []))) ∧
    ((∀ q ∈ mkEditor.file_buffers, q.1 ≠ "f.py") → mkEditor.file_path ≠ some "f.py" →
      (open_file mkEditor "f.py" (some "py") (some [])).buffer = [[]]) ∧
    Inv mkEditor :=
  buffer_always_nonempty mkEditor 'a' none "f.py" (some "py") (some [])
    (by unfold Inv; decide)

/-! ## C8: wordLeft / wordRight -/

theorem special_not_word (c : Char) (h : is_special_char c = true) : isWordChar c = false := by
  simp only [is_special_char, Bool.or_eq_true, beq_iff_eq] at h
  repeat' (rcases h with h | h)
  all_goals decide

theorem special_not_ws (c : Char) (h : is_special_char c = true) : is_space_tab c = false := by
  simp only [is_special_char, Bool.or_eq_true, beq_iff_eq] at h
  repeat' (rcases h with h | h)
  all_goals decide

theorem ws_not_word (c : Char) (h : is_space_tab c = true) : isWordChar c = false := by
  simp only [is_space_tab, Bool.or_eq_true, beq_iff_eq] at h
  rcases h with h | h <;> subst h <;> decide

theorem word_not_ws (c : Char) (h : isWordChar c = true) : is_space_tab c = false := by
  cases hws : is_space_tab c with
  | false => rfl
  | true => rw [ws_not_word c hws] at h; cases h

theorem word_not_special (c : Char) (h : isWordChar c = true) : is_special_char c = false := by
  cases hs : is_special_char c with
  | false => rfl
  | true => rw [special_not_word c hs] at h; cases h

theorem runLen_le (p : Char → Bool) : ∀ l : List Char, runLen p l ≤ l.length := by
  intro l
  induction l with
  | nil => exact le_refl 0
  | cons c cs ih =>
    unfold runLen
    split
    · simpa using ih
    · exact Nat.zero_le _

theorem runLen_cons_false (p : Char → Bool) (c : Char) (l : List Char)
    (h : p c = false) : runLen p (c :: l) = 0 := by
  simp [runLen, h]

theorem runLen_cons_true (p : Char → Bool) (c : Char) (l : List Char)
    (h : p c = true) : runLen p (c :: l) = runLen p l + 1 := by
  simp [runLen, h]

theorem runLen_append_all (p : Char → Bool) :
    ∀ l1 l2 : List Char, (∀ c ∈ l1, p c = true) →
      runLen p (l1 ++ l2) = l1.length + runLen p l2 := by
  intro l1
  induction l1 with
  | nil => intro l2 _; simp
  | cons c cs ih =>
    intro l2 hall
    have hc : p c = true := hall c (by simp)
    rw [List.cons_append, runLen_cons_true p c _ hc,
        ih l2 (fun d hd => hall d (by simp [hd]))]
    simp only [List.length_cons]
    omega

theorem mem_take_runLen (p : Char → Bool) :
    ∀ l : List Char, ∀ c ∈ l.take (runLen p l), p c = true := by
  intro l
  induction l with
  | nil => intro c hc; simp at hc
  | cons d ds ih =>
    intro c hc
    cases hd : p d with
    | true =>
      rw [runLen_cons_true p d ds hd, List.take_succ_cons] at hc
      rcases List.mem_cons.mp hc with hc | hc
      · rw [hc]; exact hd
      · exact ih c hc
    | false =>
      rw [runLen_cons_false p d ds hd] at hc
      simp at hc

theorem getD_cons_drop (l : List Char) (n : Nat) (h : n < l.length) :
    l.drop n = l.getD n ' ' :: l.drop (n + 1) := by
  rw [List.getD_eq_getElem?_getD, List.getElem?_eq_getElem h, Option.getD_some]
  exact List.drop_eq_getElem_cons h

theorem take_eq_append_getD (l : List Char) (n : Nat) (h : n < l.length) :
    l.take (n + 1) = l.take n ++ [l.getD n ' '] := by
  rw [List.take_succ, List.getElem?_eq_getElem h,
      List.getD_eq_getElem?_getD, List.getElem?_eq_getElem h, Option.getD_some]
  rfl

/-- How `word_right` moves when the cursor stands (strictly inside the line)
on a non-whitespace character: no whitespace is skipped, and the cursor
advances by the class-dependent amount. -/
theorem word_right_fields (e : Editor)
    (hx : e.cursor_x < (e.buffer.getD e.cursor_y []).length)
    (hnw : is_space_tab ((e.buffer.getD e.cursor_y []).getD e.cursor_x ' ') = false) :
    (word_right e).buffer = e.buffer ∧
    (word_right e).cursor_y = e.cursor_y ∧
    (word_right e).cursor_x =
      (if is_special_char ((e.buffer.getD e.cursor_y []).getD e.cursor_x ' ') then
        e.cursor_x + 1
       else if isWordChar ((e.buffer.getD e.cursor_y []).getD e.cursor_x ' ') then
        e.cursor_x + runLen isWordChar ((e.buffer.getD e.cursor_y []).drop e.cursor_x)
       else e.cursor_x) := by
  have hT : runLen is_space_tab ((e.buffer.getD e.cursor_y []).drop e.cursor_x) = 0 := by
    rw [getD_cons_drop _ _ hx]
    exact runLen_cons_false _ _ _ hnw
  unfold word_right
  dsimp only
  rw [hT]
  simp only [Nat.add_zero]
  have hge : ¬ e.cursor_x ≥ (e.buffer.getD e.cursor_y []).length := by omega
  rw [if_neg hge, if_neg hge]
  refine ⟨?_, ?_, ?_⟩
  · rw [(update_bracket_preserves _).1]
  · rw [(update_bracket_preserves _).2.2.1]
  · rw [(update_bracket_preserves _).2.1]

/-- How `word_left` moves when no whitespace lies directly left of the
cursor (and the cursor is not at column 0): the cursor retreats by the
class-dependent amount determined by the character to its left. -/
theorem word_left_fields (e : Editor)
    (h0 : e.cursor_x ≠ 0)
    (hT : runLen is_space_tab (((e.buffer.getD e.cursor_y []).take e.cursor_x).reverse) = 0) :
    (word_left e).buffer = e.buffer ∧
    (word_left e).cursor_y = e.cursor_y ∧
    (word_left e).cursor_x =
      (if is_special_char ((e.buffer.getD e.cursor_y []).getD (e.cursor_x - 1) ' ') then
        e.cursor_x - 1
       else if isWordChar ((e.buffer.getD e.cursor_y []).getD (e.cursor_x - 1) ' ') then
        e.cursor_x - runLen isWordChar (((e.buffer.getD e.cursor_y []).take e.cursor_x).reverse)
       else e.cursor_x) := by
  unfold word_left
  dsimp only
  rw [if_neg h0, hT]
  simp only [Nat.sub_zero]
  rw [if_neg h0]
  refine ⟨?_, ?_, ?_⟩
  · rw [(update_bracket_preserves _).1]
  · rw [(update_bracket_preserves _).2.2.1]
  · rw [(update_bracket_preserves _).2.1]

/-- C8 counterexample: on the single line "ab" with the cursor at column 1
(inside the word, not at a buffer boundary), `word_right` moves to column 2
and `word_left` then returns to column 0, not to the original column 1. -/
theorem word_roundtrip_counterexample :
    (word_left (word_right { mkEditor with buffer := [['a', 'b']], cursor_x := 1 })).cursor_x
        = 0 ∧
    ((word_left (word_right { mkEditor with buffer := [['a', 'b']], cursor_x := 1 })).cursor_x
        = 1 → False) := by
  decide

/-- C8 amended: `word_left` after `word_right` returns the cursor to the
original column when the character under the cursor is a
punctuation-delimiter, or is a word character that STARTS a word run (its
left neighbour, if any, is not a word character).  Starting from the middle
of a word or from whitespace the round trip instead lands at the start of
the enclosing word run (see the counterexample). -/
theorem word_right_left_roundtrip (e : Editor)
    (hx : e.cursor_x < (e.buffer.getD e.cursor_y []).length)
    (hcl : is_special_char ((e.buffer.getD e.cursor_y []).getD e.cursor_x ' ') = true
        ∨ (isWordChar ((e.buffer.getD e.cursor_y []).getD e.cursor_x ' ') = true
           ∧ (e.cursor_x = 0
              ∨ isWordChar ((e.buffer.getD e.cursor_y []).getD (e.cursor_x - 1) ' ')
                  = false))) :
    (word_left (word_right e)).cursor_x = e.cursor_x ∧
    (word_left (word_right e)).cursor_y = e.cursor_y := by
  rcases hcl with hsp | ⟨hw, hstart⟩
  · -- the cursor stands on a punctuation-delimiter
    have hnw := special_not_ws _ hsp
    obtain ⟨r1, r2, r3⟩ := word_right_fields e hx hnw
    have hx1 : (word_right e).cursor_x = e.cursor_x + 1 := by rw [r3, if_pos hsp]
    have htake : ((e.buffer.getD e.cursor_y []).take (e.cursor_x + 1)).reverse
        = (e.buffer.getD e.cursor_y []).getD e.cursor_x ' '
          :: ((e.buffer.getD e.cursor_y []).take e.cursor_x).reverse := by
      rw [take_eq_append_getD _ _ hx, List.reverse_append]
      rfl
    have hTf : runLen is_space_tab
        ((((word_right e).buffer.getD (word_right e).cursor_y []).take
          (word_right e).cursor_x).reverse) = 0 := by
      rw [r1, r2, hx1, htake]
      exact runLen_cons_false _ _ _ hnw
    obtain ⟨l1, l2, l3⟩ := word_left_fields (word_right e)
      (by rw [hx1]; exact Nat.succ_ne_zero _) hTf
    constructor
    · rw [l3, r1, r2, hx1, Nat.add_sub_cancel, if_pos hsp]
    · rw [l2, r2]
  · -- the cursor stands at the start of a word run
    have hnw := word_not_ws _ hw
    have hns := word_not_special _ hw
    obtain ⟨r1, r2, r3⟩ := word_right_fields e hx hnw
    have hx1 : (word_right e).cursor_x
        = e.cursor_x + runLen isWordChar ((e.buffer.getD e.cursor_y []).drop e.cursor_x) := by
      rw [r3, if_neg (by rw [hns]; exact Bool.false_ne_true), if_pos hw]
    set L := e.buffer.getD e.cursor_y [] with hLdef
    set k := runLen isWordChar (L.drop e.cursor_x) with hkdef
    have hk1 : 1 ≤ k := by
      rw [hkdef, getD_cons_drop _ _ hx, runLen_cons_true _ _ _ hw]
      omega
    have hkle : k ≤ L.length - e.cursor_x := by
      have := runLen_le isWordChar (L.drop e.cursor_x)
      rwa [List.length_drop] at this
    have hedle : e.cursor_x + k ≤ L.length := by omega
    have hed1 : e.cursor_x + k - 1 < L.length := by omega
    set r := (L.drop e.cursor_x).take k with hrdef
    have hrlen : r.length = k := by
      rw [hrdef, List.length_take, List.length_drop]
      omega
    have htake_ed : L.take (e.cursor_x + k) = L.take e.cursor_x ++ r := by
      rw [List.take_add]
    have hallr : ∀ c ∈ r, isWordChar c = true := fun c hc =>
      mem_take_runLen isWordChar (L.drop e.cursor_x) c hc
    have hrne : r ≠ [] := List.ne_nil_of_length_pos (by omega)
    obtain ⟨hd, tl, hrv⟩ : ∃ hd tl, r.reverse = hd :: tl := by
      cases hr : r.reverse with
      | nil =>
        exfalso
        have hr0 : r.length = 0 := by
          rw [← List.length_reverse r, hr]
          rfl
        omega
      | cons a b => exact ⟨a, b, rfl⟩
    have hhd_mem : hd ∈ r := by
      rw [← List.mem_reverse, hrv]
      exact List.mem_cons_self _ _
    have hWhd := hallr hd hhd_mem
    have hrev_ed : (L.take (e.cursor_x + k)).reverse
        = hd :: (tl ++ (L.take e.cursor_x).reverse) := by
      rw [htake_ed, List.reverse_append, hrv]
      rfl
    have hT2 : runLen is_space_tab ((L.take (e.cursor_x + k)).reverse) = 0 := by
      rw [hrev_ed]
      exact runLen_cons_false _ _ _ (word_not_ws _ hWhd)
    have hprev : L.getD (e.cursor_x + k - 1) ' ' = hd := by
      have h1 : (L.take (e.cursor_x + k)).reverse
          = L.getD (e.cursor_x + k - 1) ' ' :: (L.take (e.cursor_x + k - 1)).reverse := by
        have h2 := take_eq_append_getD L (e.cursor_x + k - 1) hed1
        rw [show e.cursor_x + k - 1 + 1 = e.cursor_x + k from by omega] at h2
        rw [h2, List.reverse_append]
        rfl
      rw [h1] at hrev_ed
      exact ((List.cons.injEq _ _ _ _).mp hrev_ed).1
    have hWprev : isWordChar (L.getD (e.cursor_x + k - 1) ' ') = true := by
      rw [hprev]; exact hWhd
    have hz : runLen isWordChar ((L.take e.cursor_x).reverse) = 0 := by
      by_cases hcx0 : e.cursor_x = 0
      · rw [hcx0, List.take_zero]
        rfl
      · have hWp : isWordChar (L.getD (e.cursor_x - 1) ' ') = false :=
          hstart.resolve_left hcx0
        have hcx1 : e.cursor_x - 1 < L.length := by omega
        have h2 := take_eq_append_getD L (e.cursor_x - 1) hcx1
        rw [show e.cursor_x - 1 + 1 = e.cursor_x from by omega] at h2
        rw [h2, List.reverse_append, List.reverse_singleton, List.singleton_append]
        exact runLen_cons_false _ _ _ hWp
    have hrunW : runLen isWordChar ((L.take (e.cursor_x + k)).reverse) = k := by
      rw [htake_ed, List.reverse_append]
      rw [runLen_append_all isWordChar r.reverse _
        (fun c hc => hallr c (List.mem_reverse.mp hc))]
      rw [List.length_reverse, hrlen, hz]
      omega
    have hTf : runLen is_space_tab
        ((((word_right e).buffer.getD (word_right e).cursor_y []).take
          (word_right e).cursor_x).reverse) = 0 := by
      rw [r1, r2, hx1, ← hLdef]
      exact hT2
    obtain ⟨l1, l2, l3⟩ := word_left_fields (word_right e)
      (by rw [hx1]; omega) hTf
    constructor
    · rw [l3, r1, r2, hx1, ← hLdef,
          if_neg (by rw [word_not_special _ hWprev]; exact Bool.false_ne_true),
          if_pos hWprev, hrunW]
      omega
    · rw [l2, r2]

/-- The buffer `["ab +"]` with the cursor at column 0, the start of the
word run "ab". -/
def edWordStart : Editor :=
  { mkEditor with
    buffer := [['a', 'b', ' ', '+']] }

theorem word_right_left_roundtrip_witness :
    (word_left (word_right edWordStart)).cursor_x = edWordStart.cursor_x ∧
    (word_left (word_right edWordStart)).cursor_y = edWordStart.cursor_y :=
  word_right_left_roundtrip edWordStart (by decide)
    (Or.inr ⟨by decide, Or.inl (by decide)⟩)

end Termi
